import Mathlib

/-! Verification of the Lumber user service (src/main.go).

Shallow embedding of the core logic of a small CRUD HTTP service over
user records.  The source contains two variants of the program:

* variant A (src/main.go lines 1-173): a purely in-memory record store;
* variant B (src/main.go lines 174-431): the same handlers with a
  MongoDB persistence mirror written through on create/delete and
  bulk-loaded into memory at startup.

We model Go `int` as `Int` (the ids and ages involved are tiny, so
machine overflow is irrelevant to every property below), the shared
record slice as a `List User`, and the mirror as a `List User` whose
fallible network operations are driven by an explicit oracle flag.
-/

namespace Lumber

/-- The user record (src/main.go lines 12-16 and 191-195):
`{ id: int, name: string, age: int }`. -/
structure User where
  ID : Int
  Name : String
  Age : Int
  deriving DecidableEq, Repr

/-! ## Go `strconv.Atoi`

The handlers parse the `id` query parameter with `strconv.Atoi`.
We model it on unbounded integers: an optional single sign followed by
at least one decimal digit; anything else is an error (`none`). -/

/-- Accumulating decimal-digit parser: consumes the whole list or fails. -/
def atoiDigits : List Char → Nat → Option Nat
  | [], acc => some acc
  | c :: rest, acc =>
      if c.isDigit then atoiDigits rest (acc * 10 + (c.toNat - 48)) else none

/-- Model of Go `strconv.Atoi`: optional sign, then digits; rejects the
empty string and a bare sign. -/
def atoi (s : String) : Option Int :=
  match s.toList with
  | [] => none
  | '+' :: cs =>
      match cs with
      | [] => none
      | _ => (atoiDigits cs 0).map (fun n => (n : Int))
  | '-' :: cs =>
      match cs with
      | [] => none
      | _ => (atoiDigits cs 0).map (fun n => -(n : Int))
  | cs => (atoiDigits cs 0).map (fun n => (n : Int))

/-! ## Store-level loops

Each handler scans the shared `users` slice with a `for ... range` loop.
These functions are the direct translations of those loops. -/

/-- Linear scan for the first record with the given id
(src/main.go lines 45-50, `getUser`). -/
def findByID (id : Int) : List User → Option User
  | [] => none
  | u :: rest => if u.ID = id then some u else findByID id rest

/-- Removal of the first record with the given id, keeping the rest in
order: `users = append(users[:i], users[i+1:]...)` at the first match
(src/main.go lines 117-123, variant A `deleteUser`). -/
def removeByID (id : Int) : List User → Option (List User)
  | [] => none
  | u :: rest =>
      if u.ID = id then some rest
      else (removeByID id rest).map (fun vs => u :: vs)

/-- In-place update of the first record with the given id:
`users[i].Name = updatedUser.Name; users[i].Age = updatedUser.Age`,
returning the updated record as the handler encodes `users[i]`
(src/main.go lines 93-99, `updateUser`). -/
def updateByID (id : Int) (nm : String) (ag : Int) :
    List User → Option (User × List User)
  | [] => none
  | u :: rest =>
      if u.ID = id then
        some (⟨u.ID, nm, ag⟩, ⟨u.ID, nm, ag⟩ :: rest)
      else (updateByID id nm ag rest).map (fun p => (p.1, u :: p.2))

/-! ## Variant A: the plain in-memory store -/

/-- The shared mutable state of variant A: the `users` slice and the
`nextID` counter (src/main.go lines 18-22). -/
structure StoreState where
  users : List User
  nextID : Int
  deriving DecidableEq, Repr

/-- The initial state: `users = []User{}`, `nextID = 1`
(src/main.go lines 19-20). -/
def initialStore : StoreState := ⟨[], 1⟩

/-- Variant A `createUser` core (src/main.go lines 66-68): overwrite the
decoded payload's id with `nextID`, increment the counter, append. -/
def createUser (s : StoreState) (payload : User) : User × StoreState :=
  let u : User := ⟨s.nextID, payload.Name, payload.Age⟩
  (u, ⟨s.users ++ [u], s.nextID + 1⟩)

/-- One store operation of variant A, as issued by the handlers after
input decoding succeeded. -/
inductive Op where
  | create (payload : User)
  | update (id : Int) (nm : String) (ag : Int)
  | delete (id : Int)
  deriving DecidableEq, Repr

/-- Effect of one operation on the store; `create` also reports the id
it issued.  `update`/`delete` leave the state alone on `NotFound`
(src/main.go lines 93-102 and 117-125). -/
def stepOp (s : StoreState) : Op → StoreState × Option Int
  | .create payload =>
      let (u, s') := createUser s payload
      (s', some u.ID)
  | .update id nm ag =>
      match updateByID id nm ag s.users with
      | some (_, us') => (⟨us', s.nextID⟩, none)
      | none => (s, none)
  | .delete id =>
      match removeByID id s.users with
      | some us' => (⟨us', s.nextID⟩, none)
      | none => (s, none)

/-- Run a sequence of operations, collecting the ids issued by the
creates, in order. -/
def runOps : StoreState → List Op → StoreState × List Int
  | s, [] => (s, [])
  | s, op :: rest =>
      let (s', issued) := stepOp s op
      let (sf, ids) := runOps s' rest
      (sf, issued.toList ++ ids)

/-! ## HTTP-level responses -/

/-- Observable outcome of one handler invocation.  `fatal` models
`log.Fatal`, which terminates the process. -/
inductive Resp where
  | okUser (u : User)
  | created (u : User)
  | noContent
  | badRequest
  | notFound
  | serverError
  | fatal
  deriving DecidableEq, Repr

/-- Variant A/B `getUser` handler (src/main.go lines 33-53 and 213-233):
parse the id, scan the store, 400 on a malformed id, 404 on no match. -/
def getUser (idStr : String) (users : List User) : Resp :=
  match atoi idStr with
  | none => .badRequest
  | some id =>
      match findByID id users with
      | some u => .okUser u
      | none => .notFound

/-! ## Variant B: the mirrored system

The full shared state of the mirrored program: the in-memory store, the
counter, and the MongoDB `UsersDB.Users` collection modelled as a list
of the same records.  Network failures of the mirror are driven by an
explicit oracle flag in the handlers that talk to it. -/

/-- Shared state of variant B (src/main.go lines 197-202 plus the
external collection). -/
structure SysState where
  users : List User
  nextID : Int
  mirror : List User
  deriving DecidableEq, Repr

/-- Variant B `createUser` (src/main.go lines 236-265): decode the body
(`none` models a decode error), assign `nextID` and increment it, then
`InsertOne` into the mirror — 500 and return on failure, otherwise
append to memory and report 201.  `insertOk` is the oracle for the
mirror insert's success. -/
def createUserMirrored (s : SysState) (body : Option User)
    (insertOk : Bool) : Resp × SysState :=
  match body with
  | none => (.badRequest, s)
  | some payload =>
      let u : User := ⟨s.nextID, payload.Name, payload.Age⟩
      let s1 : SysState := ⟨s.users, s.nextID + 1, s.mirror⟩
      if insertOk then
        (.created u, ⟨s1.users ++ [u], s1.nextID, s1.mirror ++ [u]⟩)
      else
        (.serverError, s1)

/-- Variant B `updateUser` (src/main.go lines 268-295): identical to
variant A and never touches the mirror. -/
def updateUserMirrored (s : SysState) (body : Option User)
    (idStr : String) : Resp × SysState :=
  match body with
  | none => (.badRequest, s)
  | some upd =>
      match atoi idStr with
      | none => (.badRequest, s)
      | some id =>
          match updateByID id upd.Name upd.Age s.users with
          | some (u', us') => (.okUser u', ⟨us', s.nextID, s.mirror⟩)
          | none => (.notFound, s)

/-- Mongo `DeleteOne` with filter `{id: id}`: removes the first
matching document and reports how many (0 or 1) were deleted
(src/main.go lines 312-314). -/
def deleteOneMirror (id : Int) (m : List User) : List User × Nat :=
  match removeByID id m with
  | some m' => (m', 1)
  | none => (m, 0)

/-! ### The variant B in-memory removal loop

Variant B's `deleteUser` removes the in-memory copy with

```
for i, user := range users {
    if user.ID == id {
        users = append(users[:i], users[i+1:]...)
    }
}
```

(src/main.go lines 321-325).  `range users` snapshots the slice header
(array and length `n`) once, while `append(users[:i], users[i+1:]...)`
shifts the underlying array in place and shrinks the global slice, so
later iterations read the mutated array through the stale length-`n`
header.  We model the array as a list `arr` of fixed length `n`
together with the current global slice length `L`; `users[i+1:]` panics
when `i + 1 > L` (slice bound beyond length), which we surface as
`none`. -/

/-- One in-place `append(users[:i], users[i+1:]...)` on the array:
positions `< i` keep their values, positions `i .. L-2` receive the old
`arr[i+1 .. L-1]`, positions `≥ L-1` are untouched. -/
def goRemoveAt (arr : List User) (L i : Nat) : List User :=
  arr.take i ++ (arr.drop (i + 1)).take (L - 1 - i) ++ arr.drop (L - 1)

/-- The loop body, iterating index `i` with `fuel = n - i` remaining
iterations over the snapshot header of length `n`; returns the final
array and global length, or `none` on a slice-bounds panic. -/
def goDeleteLoopAux (id : Int) : Nat → List User → Nat → Nat →
    Option (List User × Nat)
  | _, arr, L, 0 => some (arr, L)
  | i, arr, L, fuel + 1 =>
      match arr[i]? with
      | none => some (arr, L)
      | some u =>
          if u.ID = id then
            if i + 1 ≤ L then
              goDeleteLoopAux id (i + 1) (goRemoveAt arr L i) (L - 1) fuel
            else none
          else goDeleteLoopAux id (i + 1) arr L fuel

/-- The whole removal loop of variant B `deleteUser`: Go semantics of
ranging over a slice that is shrunk in place; yields the final contents
of `users`, or `none` if the loop panics. -/
def goDeleteLoop (id : Int) (users : List User) : Option (List User) :=
  (goDeleteLoopAux id 0 users users.length users.length).map
    (fun p => p.1.take p.2)

/-- Variant B `deleteUser` (src/main.go lines 298-333): decode `{id}`
from the body, `DeleteOne` on the mirror — `log.Fatal` on error
(oracle `mirrorErr`) — then branch on `DeletedCount`: if positive, run
the in-memory removal loop and answer 204, else answer 404 leaving
memory alone. -/
def deleteUserMirrored (s : SysState) (body : Option User)
    (mirrorErr : Bool) : Resp × SysState :=
  match body with
  | none => (.badRequest, s)
  | some user =>
      let id := user.ID
      if mirrorErr then (.fatal, s)
      else
        let md := deleteOneMirror id s.mirror
        if 0 < md.2 then
          match goDeleteLoop id s.users with
          | some users' => (.noContent, ⟨users', s.nextID, md.1⟩)
          | none => (.fatal, ⟨s.users, s.nextID, md.1⟩)
        else
          (.notFound, ⟨s.users, s.nextID, md.1⟩)

/-! ## Helper lemmas about the scan loops -/

theorem findByID_eq_none (id : Int) :
    ∀ l : List User, (∀ v ∈ l, v.ID ≠ id) → findByID id l = none := by
  intro l
  induction l with
  | nil => intro _; rfl
  | cons v rest ih =>
      intro h
      have hv : v.ID ≠ id := h v (by simp)
      simp only [findByID, if_neg hv]
      exact ih (fun w hw => h w (by simp [hw]))

theorem findByID_first (pre post : List User) (w : User) (id : Int)
    (hw : w.ID = id) (hpre : ∀ v ∈ pre, v.ID ≠ id) :
    findByID id (pre ++ w :: post) = some w := by
  induction pre with
  | nil => simp [findByID, hw]
  | cons v pre ih =>
      have hv : v.ID ≠ id := hpre v (by simp)
      simp only [List.cons_append, findByID, if_neg hv]
      exact ih (fun x hx => hpre x (by simp [hx]))

theorem removeByID_first (pre post : List User) (u : User)
    (hpre : ∀ v ∈ pre, v.ID ≠ u.ID) :
    removeByID u.ID (pre ++ u :: post) = some (pre ++ post) := by
  induction pre with
  | nil => simp [removeByID]
  | cons v pre ih =>
      have hv : v.ID ≠ u.ID := hpre v (by simp)
      simp only [List.cons_append, removeByID, if_neg hv, List.append_eq]
      rw [ih (fun w hw => hpre w (by simp [hw]))]
      rfl

theorem updateByID_first (pre post : List User) (u : User)
    (nm : String) (ag : Int) (hpre : ∀ v ∈ pre, v.ID ≠ u.ID) :
    updateByID u.ID nm ag (pre ++ u :: post) =
      some (⟨u.ID, nm, ag⟩, pre ++ ⟨u.ID, nm, ag⟩ :: post) := by
  induction pre with
  | nil => simp [updateByID]
  | cons v pre ih =>
      have hv : v.ID ≠ u.ID := hpre v (by simp)
      simp only [List.cons_append, updateByID, if_neg hv, List.append_eq]
      rw [ih (fun w hw => hpre w (by simp [hw]))]
      rfl

/-- `removeByID` only ever drops one element: the result is a sublist
of the input. -/
theorem removeByID_sublist (id : Int) :
    ∀ l l' : List User, removeByID id l = some l' → l'.Sublist l := by
  intro l
  induction l with
  | nil => intro l' h; cases h
  | cons v rest ih =>
      intro l' h
      by_cases hv : v.ID = id
      · simp only [removeByID, if_pos hv, Option.some.injEq] at h
        exact h ▸ List.sublist_cons_self v rest
      · simp only [removeByID, if_neg hv, Option.map_eq_some'] at h
        obtain ⟨vs, hvs, rfl⟩ := h
        exact (ih vs hvs).cons₂ v

/-- `updateByID` keeps the id of every slot: the id column of the
collection is unchanged. -/
theorem updateByID_map_id (id : Int) (nm : String) (ag : Int) :
    ∀ l : List User, ∀ p : User × List User,
      updateByID id nm ag l = some p →
      p.2.map User.ID = l.map User.ID := by
  intro l
  induction l with
  | nil => intro p h; cases h
  | cons v rest ih =>
      intro p h
      by_cases hv : v.ID = id
      · simp only [updateByID, if_pos hv, Option.some.injEq] at h
        subst h
        simp [hv]
      · simp only [updateByID, if_neg hv, Option.map_eq_some'] at h
        obtain ⟨q, hq, rfl⟩ := h
        simp [ih q hq]

/-! ## Helper lemmas about the variant B removal loop -/

theorem goDeleteLoopAux_zero (id : Int) (i : Nat) (arr : List User)
    (L : Nat) : goDeleteLoopAux id i arr L 0 = some (arr, L) := rfl

theorem goDeleteLoopAux_succ (id : Int) (i : Nat) (arr : List User)
    (L fuel : Nat) :
    goDeleteLoopAux id i arr L (fuel + 1) =
      match arr[i]? with
      | none => some (arr, L)
      | some u =>
          if u.ID = id then
            if i + 1 ≤ L then
              goDeleteLoopAux id (i + 1) (goRemoveAt arr L i) (L - 1) fuel
            else none
          else goDeleteLoopAux id (i + 1) arr L fuel := rfl

/-- Running the loop over a stretch of `m` non-matching reads just
advances the index. -/
theorem goDeleteLoopAux_skip (id : Int) :
    ∀ (m i fuel : Nat) (arr : List User) (L : Nat),
      (∀ j, j < m → ∃ v, arr[i + j]? = some v ∧ v.ID ≠ id) →
      goDeleteLoopAux id i arr L (m + fuel) =
        goDeleteLoopAux id (i + m) arr L fuel := by
  intro m
  induction m with
  | zero => intro i fuel arr L _; simp
  | succ k ih =>
      intro i fuel arr L h
      obtain ⟨v, hv, hvid⟩ := h 0 (Nat.succ_pos k)
      rw [Nat.add_zero] at hv
      have e1 : k + 1 + fuel = (k + fuel) + 1 := by omega
      rw [e1, goDeleteLoopAux_succ, hv]
      simp only [if_neg hvid]
      rw [ih (i + 1) fuel arr L
        (fun j hj => by
          obtain ⟨w, hw, hwid⟩ := h (j + 1) (by omega)
          refine ⟨w, ?_, hwid⟩
          rw [← hw]
          congr 1
          omega)]
      congr 1
      omega

/-- Reading any valid position yields a member of the list. -/
theorem getElem?_mem_of_lt (l : List User) (k : Nat) (hk : k < l.length) :
    ∃ v, l[k]? = some v ∧ v ∈ l :=
  ⟨l[k], List.getElem?_eq_getElem hk, List.getElem_mem hk⟩

/-- Variant B's in-memory removal loop, run on a collection in which
exactly one record carries the target id, removes exactly that record
and keeps the others in order — despite ranging over the slice while
shrinking it in place, because the one skipped position and the one
stale read can no longer match. -/
theorem goDeleteLoop_first (pre post : List User) (u : User)
    (hpre : ∀ v ∈ pre, v.ID ≠ u.ID) (hpost : ∀ v ∈ post, v.ID ≠ u.ID) :
    goDeleteLoop u.ID (pre ++ u :: post) = some (pre ++ post) := by
  unfold goDeleteLoop
  have hlen : (pre ++ u :: post).length = pre.length + (post.length + 1) := by
    simp
  have hskip1 : ∀ j, j < pre.length →
      ∃ v, (pre ++ u :: post)[0 + j]? = some v ∧ v.ID ≠ u.ID := by
    intro j hj
    rw [Nat.zero_add, List.getElem?_append_left hj]
    obtain ⟨v, hv, hvmem⟩ := getElem?_mem_of_lt pre j hj
    exact ⟨v, hv, hpre v hvmem⟩
  have hu : (pre ++ u :: post)[pre.length]? = some u := by
    rw [List.getElem?_append_right (le_refl pre.length)]
    simp
  rw [hlen,
    goDeleteLoopAux_skip u.ID pre.length 0 (post.length + 1) _ _ hskip1,
    Nat.zero_add, goDeleteLoopAux_succ, hu]
  simp only [if_pos rfl, if_pos (by omega :
    pre.length + 1 ≤ pre.length + (post.length + 1))]
  rcases List.eq_nil_or_concat post with rfl | ⟨q, w, rfl⟩
  · have e2 : goRemoveAt (pre ++ [u]) (pre.length + (0 + 1)) pre.length
        = pre ++ [u] := by
      unfold goRemoveAt
      have d1 : pre.length + (0 + 1) - 1 - pre.length = 0 := by omega
      have d2 : pre.length + (0 + 1) - 1 = pre.length := by omega
      rw [d1, d2, List.take_zero, List.take_left, List.drop_left]
      simp
    simp only [List.length_nil, e2, goDeleteLoopAux_zero]
    simp
  · simp only [List.concat_eq_append] at hpost ⊢
    have hq : ∀ v ∈ q ++ [w], v.ID ≠ u.ID := hpost
    have e2 : goRemoveAt (pre ++ u :: (q ++ [w]))
        (pre.length + ((q ++ [w]).length + 1)) pre.length
        = pre ++ ((q ++ [w]) ++ [w]) := by
      unfold goRemoveAt
      have d1 : pre.length + ((q ++ [w]).length + 1) - 1 - pre.length
          = (q ++ [w]).length := by omega
      have d2 : pre.length + ((q ++ [w]).length + 1) - 1
          = (pre ++ u :: q).length := by simp
      rw [d1, d2, List.take_left]
      have d3 : (pre ++ u :: (q ++ [w])).drop (pre.length + 1)
          = q ++ [w] := by
        rw [List.drop_append 1]
        rfl
      have d4 : pre ++ u :: (q ++ [w]) = (pre ++ u :: q) ++ [w] := by
        simp
      rw [d3, List.take_length, d4, List.drop_left]
      simp
    rw [e2]
    have hskip2 : ∀ j, j < (q ++ [w]).length →
        ∃ v, (pre ++ ((q ++ [w]) ++ [w]))[pre.length + 1 + j]? = some v ∧
          v.ID ≠ u.ID := by
      intro j hj
      rw [List.getElem?_append_right (by omega : pre.length ≤ pre.length + 1 + j)]
      have hj2 : pre.length + 1 + j - pre.length < ((q ++ [w]) ++ [w]).length := by
        simp at hj ⊢
        omega
      obtain ⟨v, hv, hvmem⟩ := getElem?_mem_of_lt _ _ hj2
      refine ⟨v, hv, ?_⟩
      rcases List.mem_append.mp hvmem with h1 | h1
      · exact hq v h1
      · have : v = w := by simpa using h1
        exact this ▸ hq w (by simp)
    have efuel : (q ++ [w]).length = (q ++ [w]).length + 0 := by omega
    rw [efuel,
      goDeleteLoopAux_skip u.ID ((q ++ [w]).length) (pre.length + 1) 0 _ _
        hskip2,
      goDeleteLoopAux_zero]
    rw [if_pos trivial,
      show pre ++ (q ++ [w] ++ [w]) = (pre ++ (q ++ [w])) ++ [w] by simp]
    simp only [Option.map_some', Option.some.injEq]
    rw [List.take_left' (by simp)]

/-! ## Helper lemmas about operation sequences -/

theorem runOps_cons (s : StoreState) (op : Op) (rest : List Op) :
    runOps s (op :: rest) =
      ((runOps (stepOp s op).1 rest).1,
        (stepOp s op).2.toList ++ (runOps (stepOp s op).1 rest).2) := rfl

theorem stepOp_create (s : StoreState) (payload : User) :
    stepOp s (.create payload) =
      (⟨s.users ++ [⟨s.nextID, payload.Name, payload.Age⟩], s.nextID + 1⟩,
        some s.nextID) := rfl

/-- No operation ever decreases the id counter. -/
theorem stepOp_nextID_mono (s : StoreState) (op : Op) :
    s.nextID ≤ (stepOp s op).1.nextID := by
  cases op with
  | create payload => simp [stepOp_create]
  | update id nm ag =>
      cases h : updateByID id nm ag s.users with
      | none => simp [stepOp, h]
      | some p =>
          obtain ⟨pu, pl⟩ := p
          simp [stepOp, h]
  | delete id =>
      cases h : removeByID id s.users with
      | none => simp [stepOp, h]
      | some l => simp [stepOp, h]

/-- Either an operation issues no id and keeps the counter's lower
bound, or it is a create: it issues exactly the current counter value
and bumps the counter past it. -/
theorem stepOp_issued_cases (s : StoreState) (op : Op) :
    (stepOp s op).2 = none ∨
      ((stepOp s op).2 = some s.nextID ∧
        (stepOp s op).1.nextID = s.nextID + 1) := by
  cases op with
  | create payload => exact Or.inr ⟨rfl, rfl⟩
  | update id nm ag =>
      refine Or.inl ?_
      cases h : updateByID id nm ag s.users with
      | none => simp [stepOp, h]
      | some p =>
          obtain ⟨pu, pl⟩ := p
          simp [stepOp, h]
  | delete id =>
      refine Or.inl ?_
      cases h : removeByID id s.users with
      | none => simp [stepOp, h]
      | some l => simp [stepOp, h]

/-- The ids issued along any run are strictly increasing in order of
issue, and all of them are at least the starting counter value. -/
theorem runOps_issued (ops : List Op) :
    ∀ s : StoreState,
      List.Pairwise (· < ·) (runOps s ops).2 ∧
      ∀ i ∈ (runOps s ops).2, s.nextID ≤ i := by
  induction ops with
  | nil =>
      intro s
      exact ⟨List.Pairwise.nil, fun i hi => absurd hi (List.not_mem_nil i)⟩
  | cons op rest ih =>
      intro s
      rw [runOps_cons]
      have hmono := stepOp_nextID_mono s op
      obtain ⟨h1, h2⟩ := ih (stepOp s op).1
      rcases stepOp_issued_cases s op with hnone | ⟨hsome, hnext⟩
      · rw [hnone]
        simp only [Option.toList_none, List.nil_append]
        exact ⟨h1, fun i hi => le_trans hmono (h2 i hi)⟩
      · rw [hsome]
        simp only [Option.toList_some, List.singleton_append]
        constructor
        · rw [List.pairwise_cons]
          refine ⟨fun i hi => ?_, h1⟩
          have hb := h2 i hi
          rw [hnext] at hb
          omega
        · intro i hi
          rcases List.mem_cons.mp hi with rfl | hi
          · exact le_refl _
          · have hb := h2 i hi
            rw [hnext] at hb
            omega

/-- One step preserves the store invariant: ids pairwise distinct and
all strictly below the counter. -/
theorem stepOp_preserves_inv (s : StoreState) (op : Op)
    (h1 : (s.users.map User.ID).Nodup)
    (h2 : ∀ x ∈ s.users.map User.ID, x < s.nextID) :
    ((stepOp s op).1.users.map User.ID).Nodup ∧
    ∀ x ∈ (stepOp s op).1.users.map User.ID, x < (stepOp s op).1.nextID := by
  cases op with
  | create payload =>
      rw [stepOp_create]
      dsimp only
      constructor
      · rw [List.map_append, List.nodup_append]
        refine ⟨h1, by simp, ?_⟩
        intro a ha hb
        have hax : a < s.nextID := h2 a ha
        have : a = s.nextID := by simpa using hb
        omega
      · intro x hx
        rw [List.map_append] at hx
        rcases List.mem_append.mp hx with hx | hx
        · have := h2 x hx
          omega
        · have : x = s.nextID := by simpa using hx
          omega
  | update id nm ag =>
      cases h : updateByID id nm ag s.users with
      | none =>
          simp only [stepOp, h]
          exact ⟨h1, h2⟩
      | some p =>
          obtain ⟨pu, pl⟩ := p
          have hmap := updateByID_map_id id nm ag s.users (pu, pl) h
          simp only [stepOp, h]
          exact ⟨hmap ▸ h1, fun x hx => h2 x (hmap ▸ hx)⟩
  | delete id =>
      cases h : removeByID id s.users with
      | none =>
          simp only [stepOp, h]
          exact ⟨h1, h2⟩
      | some l =>
          have hsub : (l.map User.ID).Sublist (s.users.map User.ID) :=
            (removeByID_sublist id s.users l h).map User.ID
          simp only [stepOp, h]
          exact ⟨h1.sublist hsub, fun x hx => h2 x (hsub.subset hx)⟩

/-- Any run from a store satisfying the invariant keeps it. -/
theorem runOps_preserves_inv (ops : List Op) :
    ∀ s : StoreState,
      (s.users.map User.ID).Nodup →
      (∀ x ∈ s.users.map User.ID, x < s.nextID) →
      ((runOps s ops).1.users.map User.ID).Nodup ∧
      ∀ x ∈ (runOps s ops).1.users.map User.ID,
        x < (runOps s ops).1.nextID := by
  induction ops with
  | nil => intro s h1 h2; exact ⟨h1, h2⟩
  | cons op rest ih =>
      intro s h1 h2
      rw [runOps_cons]
      obtain ⟨g1, g2⟩ := stepOp_preserves_inv s op h1 h2
      exact ih (stepOp s op).1 g1 g2

/-! ## Theorems -/

/-- C1: starting from the empty store with its counter at 1, every
sequence of operations — creates interleaved with deletes (and
updates) — issues a strictly increasing sequence of ids: each id
returned by a create is strictly greater than every id issued before
it, so deleted ids are never reused (src/main.go lines 66-68: the
counter only ever moves forward and deletes never touch it). -/
theorem create_ids_strictly_monotonic (ops : List Op) :
    List.Pairwise (· < ·) (runOps initialStore ops).2 :=
  (runOps_issued ops initialStore).1

/-- C3 (counterexample): the claim that live ids stay pairwise unique
after an arbitrary bulk load is false: seeding the store with a record
of id 1 while the counter starts at 1 (src/main.go lines 390-398 seed
ids as-is, lines 199 starts `nextID` at 1) lets the very next create
issue id 1 again, leaving two live records with the same id. -/
theorem bulk_load_id_collision :
    ¬ ((runOps ⟨[⟨1, "seed", 5⟩], 1⟩
        [Op.create ⟨0, "b", 6⟩]).1.users.map User.ID).Nodup := by
  decide

/-- C3 (amended): if every bulk-loaded id is strictly below the
counter's start value 1 (and the loaded ids are themselves pairwise
distinct), then after any sequence of create, update and delete
operations the ids of the live records remain pairwise unique — in
particular a created id never collides with a surviving bulk-loaded
one.  Without that bound on the seeded ids the property fails, as the
counterexample shows. -/
theorem bulk_load_unique_ids_amended (loaded : List User) (ops : List Op)
    (hnd : (loaded.map User.ID).Nodup)
    (hlt : ∀ u ∈ loaded, u.ID < 1) :
    ((runOps ⟨loaded, 1⟩ ops).1.users.map User.ID).Nodup := by
  have h2 : ∀ x ∈ loaded.map User.ID, x < (1 : Int) := by
    intro x hx
    obtain ⟨v, hv, rfl⟩ := List.mem_map.mp hx
    exact hlt v hv
  exact (runOps_preserves_inv ops ⟨loaded, 1⟩ hnd h2).1

/-- Witness for the amended C3: one seeded record with id 0, then a
create; the id column stays duplicate-free. -/
theorem bulk_load_unique_ids_amended_witness :
    ([(⟨0, "seed", 5⟩ : User)].map User.ID).Nodup ∧
    (∀ u ∈ [(⟨0, "seed", 5⟩ : User)], u.ID < 1) ∧
    ((runOps ⟨[⟨0, "seed", 5⟩], 1⟩
        [Op.create ⟨9, "b", 6⟩]).1.users.map User.ID).Nodup :=
  ⟨by decide, by decide,
    bulk_load_unique_ids_amended [⟨0, "seed", 5⟩] [Op.create ⟨9, "b", 6⟩]
      (by decide) (by decide)⟩

/-- C7: The update operation never performs any Persistence Mirror
operation: whatever the body, the id string, and the current state —
success, bad request, or not found — the mirror component of the state
after `updateUser` (variant B, src/main.go lines 268-295) is exactly
the mirror before it. -/
theorem update_never_touches_mirror (s : SysState) (body : Option User)
    (idStr : String) :
    ((updateUserMirrored s body idStr).2).mirror = s.mirror := by
  unfold updateUserMirrored
  split
  · rfl
  split
  · rfl
  split
  · rfl
  · rfl

/-- C2 (counterexample): the claim that a create whose mirror insert
fails leaves the id allocator counter unchanged is false: starting from
the empty state with `nextID = 1`, a failed create leaves `nextID = 2`,
because `createUser` increments the counter before attempting the
mirror insert and never rolls it back (src/main.go lines 246-256). -/
theorem create_mirror_failure_counter_changed :
    (createUserMirrored ⟨[], 1, []⟩ (some ⟨0, "Ann", 30⟩) false).2.nextID ≠
      (1 : Int) := by decide

/-- C2 (amended): when the mirror insert fails, the create reports a
server error (500) and applies neither the in-memory insert nor the
mirror insert — but the id allocator counter has already been
incremented, so the allocated id is burned (src/main.go lines
243-258). -/
theorem create_mirror_failure_aborts (s : SysState) (payload : User) :
    (createUserMirrored s (some payload) false).1 = .serverError ∧
    (createUserMirrored s (some payload) false).2.users = s.users ∧
    (createUserMirrored s (some payload) false).2.mirror = s.mirror ∧
    (createUserMirrored s (some payload) false).2.nextID = s.nextID + 1 :=
  ⟨rfl, rfl, rfl, rfl⟩

/-- C6: when the mirror's `DeleteOne` fails, variant B's `deleteUser`
calls `log.Fatal` (src/main.go lines 314-317): the outcome is fatal to
the process and the whole state — in particular the in-memory record
collection — is left untouched; the delete never proceeds to remove the
in-memory copy. -/
theorem delete_mirror_error_fatal (s : SysState) (u : User) :
    (deleteUserMirrored s (some u) true).1 = .fatal ∧
    (deleteUserMirrored s (some u) true).2 = s :=
  ⟨rfl, rfl⟩

/-- C8: a GET /user request whose id does not parse as an integer is
answered 400 at the handler boundary, uniformly in the store contents:
the response neither consults nor depends on the Record Store
(src/main.go lines 35-40). -/
theorem invalid_id_bad_request (idStr : String) (h : atoi idStr = none) :
    ∀ users : List User, getUser idStr users = .badRequest := by
  intro users
  unfold getUser
  rw [h]

/-- Witness for C8 at the spec's concrete scenario `id=abc`, on a
nonempty store. -/
theorem invalid_id_bad_request_witness :
    atoi "abc" = none ∧
      getUser "abc" [⟨1, "a", 10⟩] = .badRequest :=
  ⟨by decide, invalid_id_bad_request "abc" (by decide) [⟨1, "a", 10⟩]⟩

/-- C9: create ignores any client-supplied id: for every decoded
payload, the record stored and returned carries the allocator's current
counter value as its id — the payload's id field does not occur in the
result — in both the plain variant (src/main.go lines 57-68) and the
mirrored variant with a successful insert (lines 237-262). -/
theorem create_ignores_client_id (s : StoreState) (sys : SysState)
    (payload : User) :
    (createUser s payload).1.ID = s.nextID ∧
    (createUser s payload).2.users =
      s.users ++ [⟨s.nextID, payload.Name, payload.Age⟩] ∧
    (createUserMirrored sys (some payload) true).1 =
      .created ⟨sys.nextID, payload.Name, payload.Age⟩ ∧
    (createUserMirrored sys (some payload) true).2.users =
      sys.users ++ [⟨sys.nextID, payload.Name, payload.Age⟩] :=
  ⟨rfl, rfl, rfl, rfl⟩

/-- C4: on a store whose record ids are unique — the decomposition
`pre ++ u :: post` with no other record carrying `u.ID` — a successful
`delete(u.ID)` yields exactly `pre ++ post`: the remaining records keep
their relative order, a subsequent `get(u.ID)` answers `NotFound`, and
no listed record carries the id any more.  This holds both for variant
A's removal (src/main.go lines 117-123) and for variant B's in-place
removal loop (lines 321-325). -/
theorem delete_removes_preserving_order (pre post : List User) (u : User)
    (hpre : ∀ v ∈ pre, v.ID ≠ u.ID) (hpost : ∀ v ∈ post, v.ID ≠ u.ID) :
    removeByID u.ID (pre ++ u :: post) = some (pre ++ post) ∧
    findByID u.ID (pre ++ post) = none ∧
    u.ID ∉ (pre ++ post).map User.ID ∧
    goDeleteLoop u.ID (pre ++ u :: post) = some (pre ++ post) := by
  have hall : ∀ v ∈ pre ++ post, v.ID ≠ u.ID := by
    intro v hv
    rcases List.mem_append.mp hv with h | h
    · exact hpre v h
    · exact hpost v h
  refine ⟨removeByID_first pre post u hpre,
    findByID_eq_none u.ID (pre ++ post) hall, ?_,
    goDeleteLoop_first pre post u hpre hpost⟩
  intro hmem
  obtain ⟨v, hv, hvid⟩ := List.mem_map.mp hmem
  exact hall v hv hvid

/-- Witness for C4 on the concrete store `[1, 2, 3]`, deleting id 2. -/
theorem delete_removes_preserving_order_witness :
    (∀ v ∈ [(⟨1, "a", 10⟩ : User)], v.ID ≠ (2 : Int)) ∧
    (∀ v ∈ [(⟨3, "c", 30⟩ : User)], v.ID ≠ (2 : Int)) ∧
    (removeByID 2 [⟨1, "a", 10⟩, ⟨2, "b", 20⟩, ⟨3, "c", 30⟩] =
      some [⟨1, "a", 10⟩, ⟨3, "c", 30⟩] ∧
    findByID 2 [⟨1, "a", 10⟩, ⟨3, "c", 30⟩] = none ∧
    (2 : Int) ∉ [(⟨1, "a", 10⟩ : User), ⟨3, "c", 30⟩].map User.ID ∧
    goDeleteLoop 2 [⟨1, "a", 10⟩, ⟨2, "b", 20⟩, ⟨3, "c", 30⟩] =
      some [⟨1, "a", 10⟩, ⟨3, "c", 30⟩]) :=
  ⟨by decide, by decide,
    delete_removes_preserving_order [⟨1, "a", 10⟩] [⟨3, "c", 30⟩]
      ⟨2, "b", 20⟩ (by decide) (by decide)⟩

/-- C5: updating record `u` (the first and, under unique ids, only
record with id `u.ID`; no earlier record carries that id) replaces only
its name and age: the result keeps `u` at its position with the same
id, leaves every other record — `pre` and `post` — untouched, returns
the updated record, and a subsequent `get(u.ID)` yields exactly the
updated record (src/main.go lines 93-99). -/
theorem update_changes_only_target (pre post : List User) (u : User)
    (nm : String) (ag : Int) (hpre : ∀ v ∈ pre, v.ID ≠ u.ID) :
    updateByID u.ID nm ag (pre ++ u :: post) =
      some (⟨u.ID, nm, ag⟩, pre ++ ⟨u.ID, nm, ag⟩ :: post) ∧
    findByID u.ID (pre ++ (⟨u.ID, nm, ag⟩ : User) :: post) =
      some ⟨u.ID, nm, ag⟩ :=
  ⟨updateByID_first pre post u nm ag hpre,
    findByID_first pre post ⟨u.ID, nm, ag⟩ u.ID rfl hpre⟩

/-- Witness for C5: updating id 2 in the store `[1, 2, 3]` to
`{name := "x", age := 99}`. -/
theorem update_changes_only_target_witness :
    (∀ v ∈ [(⟨1, "a", 10⟩ : User)], v.ID ≠ (2 : Int)) ∧
    (updateByID 2 "x" 99 [⟨1, "a", 10⟩, ⟨2, "b", 20⟩, ⟨3, "c", 30⟩] =
      some (⟨2, "x", 99⟩, [⟨1, "a", 10⟩, ⟨2, "x", 99⟩, ⟨3, "c", 30⟩]) ∧
    findByID 2 [⟨1, "a", 10⟩, ⟨2, "x", 99⟩, ⟨3, "c", 30⟩] =
      some ⟨2, "x", 99⟩) :=
  ⟨by decide,
    update_changes_only_target [⟨1, "a", 10⟩] [⟨3, "c", 30⟩]
      ⟨2, "b", 20⟩ "x" 99 (by decide)⟩

/-- C10: in variant B, the delete outcome is decided solely by the
mirror's deleted-document count (src/main.go lines 319-332): when
`DeleteOne` deletes zero documents, the handler answers 404 and the
in-memory collection is untouched — even if a record with that id is
present in memory. -/
theorem delete_mirror_zero_count_not_found (s : SysState) (u : User)
    (h : (deleteOneMirror u.ID s.mirror).2 = 0) :
    (deleteUserMirrored s (some u) false).1 = .notFound ∧
    (deleteUserMirrored s (some u) false).2.users = s.users := by
  unfold deleteUserMirrored
  simp [h]

/-- Witness for C10: the mirror is empty while the in-memory store
holds a record with id 1; deleting id 1 answers 404 and the in-memory
record survives. -/
theorem delete_mirror_zero_count_not_found_witness :
    (deleteOneMirror (1 : Int) ([] : List User)).2 = 0 ∧
    (deleteUserMirrored ⟨[⟨1, "a", 10⟩], 2, []⟩ (some ⟨1, "", 0⟩)
        false).1 = .notFound ∧
    (deleteUserMirrored ⟨[⟨1, "a", 10⟩], 2, []⟩ (some ⟨1, "", 0⟩)
        false).2.users = [⟨1, "a", 10⟩] :=
  ⟨by decide,
   (delete_mirror_zero_count_not_found ⟨[⟨1, "a", 10⟩], 2, []⟩
      ⟨1, "", 0⟩ (by decide)).1,
   (delete_mirror_zero_count_not_found ⟨[⟨1, "a", 10⟩], 2, []⟩
      ⟨1, "", 0⟩ (by decide)).2⟩

end Lumber
